import Mathlib

/-!
Verification of the Bluefin wallet-authentication and request-signing
subsystem (`ts/src/bluefin.ts`): Sui personal-message signing (BCS ULEB128
length prefix, intent bytes, envelope assembly), canonical trade-payload
encoding, E9 decimal scaling, and the token-lifecycle session manager.

Byte sequences are modelled as `List Nat` (each entry a byte value),
strings as Lean `String` / `List Char`, and clock values as exact
rationals.  Recursion on numeric values uses an explicit fuel argument so
that every definition reduces inside the kernel; each such function comes
with a one-step unfolding lemma that hides the fuel.
-/

/-! ### Decimal digit utilities -/

/-- Character for a single decimal digit value (0–9). -/
def digitChar : Nat → Char
  | 0 => '0'
  | 1 => '1'
  | 2 => '2'
  | 3 => '3'
  | 4 => '4'
  | 5 => '5'
  | 6 => '6'
  | 7 => '7'
  | 8 => '8'
  | _ => '9'

/-- Numeric value of a decimal digit character. -/
def digitVal (c : Char) : Nat := c.toNat - 48

/-- Decimal digit test, `'0' ≤ c ≤ '9'`. -/
def isDigitChar (c : Char) : Bool := 48 ≤ c.toNat && c.toNat ≤ 57

/-- Fuel-driven worker for `natDigits`. -/
def natDigitsAux : Nat → Nat → List Char
  | 0, n => [digitChar n]
  | fuel + 1, n =>
    if n < 10 then [digitChar n]
    else natDigitsAux fuel (n / 10) ++ [digitChar (n % 10)]

/-- Decimal representation of a natural number, most significant digit
first (the rendering JavaScript's `BigInt.prototype.toString` produces,
`"0"` for zero). -/
def natDigits (n : Nat) : List Char := natDigitsAux n n

theorem natDigitsAux_fuel {f1 f2 n : Nat} (h1 : n ≤ f1) (h2 : n ≤ f2) :
    natDigitsAux f1 n = natDigitsAux f2 n := by
  induction f1 using Nat.strong_induction_on generalizing n f2 with
  | _ f1 ih =>
    match f1, f2 with
    | 0, f2 =>
      have : n = 0 := by omega
      subst this
      cases f2 with
      | zero => rfl
      | succ f2 => simp [natDigitsAux]
    | f1 + 1, 0 =>
      have : n = 0 := by omega
      subst this
      simp [natDigitsAux]
    | f1 + 1, f2 + 1 =>
      simp only [natDigitsAux]
      split
      · rfl
      · next h =>
        have hlt : n / 10 < n := Nat.div_lt_self (by omega) (by omega)
        have heq := ih f1 (by omega) (show n / 10 ≤ f1 by omega)
          (show n / 10 ≤ f2 by omega)
        rw [heq]

/-- One-step unfolding of `natDigits` (hides the fuel argument). -/
theorem natDigits_eq (n : Nat) :
    natDigits n = if n < 10 then [digitChar n]
      else natDigits (n / 10) ++ [digitChar (n % 10)] := by
  show natDigitsAux n n = _
  cases n with
  | zero => simp [natDigitsAux]
  | succ m =>
    simp only [natDigitsAux]
    split
    · rfl
    · next h =>
      have hlt : (m + 1) / 10 < m + 1 := Nat.div_lt_self (by omega) (by omega)
      rw [natDigitsAux_fuel (show (m+1)/10 ≤ m by omega) (le_refl _)]
      rfl

/-- Value of a list of decimal digit characters (most significant first). -/
def digitsToNat (l : List Char) : Nat :=
  l.foldl (fun a c => 10 * a + digitVal c) 0

theorem digitVal_digitChar {d : Nat} (h : d < 10) : digitVal (digitChar d) = d := by
  interval_cases d <;> decide

theorem isDigitChar_digitChar {d : Nat} (h : d < 10) : isDigitChar (digitChar d) = true := by
  interval_cases d <;> decide

theorem natDigits_ne_nil (n : Nat) : natDigits n ≠ [] := by
  rw [natDigits_eq]
  split <;> simp

theorem foldl_digits_append (l : List Char) (c : Char) (a : Nat) :
    List.foldl (fun a c => 10 * a + digitVal c) a (l ++ [c]) =
      10 * List.foldl (fun a c => 10 * a + digitVal c) a l + digitVal c := by
  rw [List.foldl_append]
  rfl

theorem digitsToNat_natDigits (n : Nat) : digitsToNat (natDigits n) = n := by
  induction n using Nat.strong_induction_on with
  | _ n ih =>
    rw [natDigits_eq]
    split
    · next h =>
      simp only [digitsToNat, List.foldl_cons, List.foldl_nil]
      rw [digitVal_digitChar h]
      omega
    · next h =>
      have hd : n / 10 < n := Nat.div_lt_self (by omega) (by omega)
      simp only [digitsToNat] at *
      rw [foldl_digits_append, ih (n / 10) hd, digitVal_digitChar (Nat.mod_lt _ (by omega))]
      omega

theorem mem_natDigits_isDigit (n : Nat) : ∀ c ∈ natDigits n, isDigitChar c = true := by
  induction n using Nat.strong_induction_on with
  | _ n ih =>
    rw [natDigits_eq]
    split
    · next h =>
      intro c hc
      simp only [List.mem_singleton] at hc
      subst hc
      exact isDigitChar_digitChar h
    · next h =>
      intro c hc
      have hd : n / 10 < n := Nat.div_lt_self (by omega) (by omega)
      rcases List.mem_append.mp hc with h1 | h2
      · exact ih (n / 10) hd c h1
      · simp only [List.mem_singleton] at h2
        subst h2
        exact isDigitChar_digitChar (Nat.mod_lt _ (by omega))

/-! ### BCS ULEB128 byte-vector serialization (`bcsSerializeBytes`) -/

/-- Fuel-driven worker for `ulebEncode`. -/
def ulebEncodeAux : Nat → Nat → List Nat
  | 0, n => [n]
  | fuel + 1, n =>
    if n < 128 then [n]
    else (n % 128 + 128) :: ulebEncodeAux fuel (n / 128)

/-- ULEB128 encoding of a natural number: the loop of `bcsSerializeBytes`
(`while (len >= 0x80) { lenBytes.push((len & 0x7f) | 0x80); len >>>= 7 }
lenBytes.push(len)`). -/
def ulebEncode (n : Nat) : List Nat := ulebEncodeAux n n

theorem ulebEncodeAux_fuel {f1 f2 n : Nat} (h1 : n ≤ f1) (h2 : n ≤ f2) :
    ulebEncodeAux f1 n = ulebEncodeAux f2 n := by
  induction f1 using Nat.strong_induction_on generalizing n f2 with
  | _ f1 ih =>
    match f1, f2 with
    | 0, f2 =>
      have : n = 0 := by omega
      subst this
      cases f2 with
      | zero => rfl
      | succ f2 => simp [ulebEncodeAux]
    | f1 + 1, 0 =>
      have : n = 0 := by omega
      subst this
      simp [ulebEncodeAux]
    | f1 + 1, f2 + 1 =>
      simp only [ulebEncodeAux]
      split
      · rfl
      · next h =>
        have hlt : n / 128 < n := Nat.div_lt_self (by omega) (by omega)
        have heq := ih f1 (by omega) (show n / 128 ≤ f1 by omega)
          (show n / 128 ≤ f2 by omega)
        rw [heq]

/-- One-step unfolding of `ulebEncode` (hides the fuel argument). -/
theorem ulebEncode_eq (n : Nat) :
    ulebEncode n = if n < 128 then [n]
      else (n % 128 + 128) :: ulebEncode (n / 128) := by
  show ulebEncodeAux n n = _
  cases n with
  | zero => simp [ulebEncodeAux]
  | succ m =>
    simp only [ulebEncodeAux]
    split
    · rfl
    · next h =>
      have hlt : (m + 1) / 128 < m + 1 := Nat.div_lt_self (by omega) (by omega)
      rw [ulebEncodeAux_fuel (show (m+1)/128 ≤ m by omega) (le_refl _)]
      rfl

/-- Decoder for a complete ULEB128 byte list (7 data bits per byte, high
bit flags continuation); used to state that the encoding is lossless. -/
def ulebDecode : List Nat → Option Nat
  | [] => none
  | b :: rest =>
    if b < 128 then
      if rest.isEmpty then some b else none
    else
      (ulebDecode rest).map (fun m => (b - 128) + 128 * m)

/-- Model of `bcsSerializeBytes`: ULEB128 length prefix followed by the
raw bytes. -/
def bcsSerializeBytes (data : List Nat) : List Nat :=
  ulebEncode data.length ++ data

theorem ulebEncode_ne_nil (n : Nat) : ulebEncode n ≠ [] := by
  rw [ulebEncode_eq]
  split <;> simp

theorem ulebDecode_ulebEncode (n : Nat) : ulebDecode (ulebEncode n) = some n := by
  induction n using Nat.strong_induction_on with
  | _ n ih =>
    rw [ulebEncode_eq]
    split
    · next h =>
      unfold ulebDecode
      simp [h]
    · next h =>
      have hd : n / 128 < n := Nat.div_lt_self (by omega) (by omega)
      rw [ulebDecode]
      have hge : ¬ (n % 128 + 128 < 128) := by omega
      rw [if_neg hge, ih (n / 128) hd]
      simp only [Option.map_some']
      congr 1
      omega

theorem ulebEncode_last_lt (n : Nat) :
    ∃ pre last, ulebEncode n = pre ++ [last] ∧ last < 128 ∧
      ∀ b ∈ pre, 128 ≤ b ∧ b < 256 := by
  induction n using Nat.strong_induction_on with
  | _ n ih =>
    rw [ulebEncode_eq]
    split
    · next h =>
      exact ⟨[], n, rfl, h, by simp⟩
    · next h =>
      have hd : n / 128 < n := Nat.div_lt_self (by omega) (by omega)
      obtain ⟨pre, last, heq, hlt, hpre⟩ := ih (n / 128) hd
      refine ⟨(n % 128 + 128) :: pre, last, by rw [heq]; rfl, hlt, ?_⟩
      intro b hb
      rcases List.mem_cons.mp hb with h1 | h2
      · subst h1
        have := Nat.mod_lt n (show 0 < 128 by omega)
        omega
      · exact hpre b h2

/-- C3: `bcsSerializeBytes(data)` is the ULEB128 encoding of `data`'s
length (7 data bits per byte, high bit set on all but the final byte,
losslessly decodable) followed by the raw bytes; length 0 yields the single
byte `0x00`, length 3 yields prefix `0x03` (4 bytes total), length 128
yields prefix `0x80 0x01` (130 bytes total), and length 300 yields prefix
`0xAC 0x02` (302 bytes total). -/
theorem c3_bcs_uleb_length_prefix :
    (∀ data : List Nat, bcsSerializeBytes data = ulebEncode data.length ++ data)
    ∧ (∀ n : Nat, ulebDecode (ulebEncode n) = some n
        ∧ ∃ pre last, ulebEncode n = pre ++ [last] ∧ last < 128 ∧
            ∀ b ∈ pre, 128 ≤ b ∧ b < 256)
    ∧ bcsSerializeBytes [] = [0]
    ∧ bcsSerializeBytes [65, 66, 67] = [3, 65, 66, 67]
    ∧ ulebEncode 128 = [128, 1]
    ∧ (bcsSerializeBytes (List.replicate 128 255)).length = 130
    ∧ ulebEncode 300 = [172, 2]
    ∧ (bcsSerializeBytes (List.replicate 300 170)).length = 302
    ∧ (bcsSerializeBytes (List.replicate 300 170)).take 2 = [172, 2] := by
  refine ⟨fun _ => rfl,
    fun n => ⟨ulebDecode_ulebEncode n, ulebEncode_last_lt n⟩,
    by decide, by decide, by decide, ?_, by decide, ?_, ?_⟩
  · show (ulebEncode (List.replicate 128 (255 : Nat)).length ++
      List.replicate 128 255).length = 130
    rw [List.length_append, List.length_replicate]
    decide
  · show (ulebEncode (List.replicate 300 (170 : Nat)).length ++
      List.replicate 300 170).length = 302
    rw [List.length_append, List.length_replicate]
    decide
  · show (ulebEncode (List.replicate 300 (170 : Nat)).length ++
      List.replicate 300 170).take 2 = [172, 2]
    rw [List.length_replicate]
    decide

/-! ### Byte/string codecs (base64, hex, UTF-8)

The repository imports these helpers (`binaryToBase64`, `base16ToBinary`,
`utf8ToBytes`) from its base layer / vendored noble utilities, which are
not under the provided sources; they are modelled here by their standard
definitions. -/

/-- Modelled from the spec: the standard base64 alphabet used by
`binaryToBase64` (RFC 4648, with `=` padding). -/
def base64Table : List Char :=
  "ABCDEFGHIJKLMNOPQRSTUVWXYZabcdefghijklmnopqrstuvwxyz0123456789+/".data

/-- Base64 character for a 6-bit value. -/
def b64c (i : Nat) : Char := base64Table.getD i 'A'

/-- Modelled from the spec: standard base64 encoding of a byte list
(`binaryToBase64` is not under the provided sources). -/
def base64EncodeList : List Nat → List Char
  | [] => []
  | [a] => [b64c (a / 4), b64c (a % 4 * 16), '=', '=']
  | [a, b] => [b64c (a / 4), b64c (a % 4 * 16 + b / 16), b64c (b % 16 * 4), '=']
  | a :: b :: c :: rest =>
    [b64c (a / 4), b64c (a % 4 * 16 + b / 16), b64c (b % 16 * 4 + c / 64),
      b64c (c % 64)] ++ base64EncodeList rest

/-- Base64 encoding returning a `String`. -/
def base64Encode (bytes : List Nat) : String := String.mk (base64EncodeList bytes)

/-- Value of one hexadecimal digit character. -/
def hexVal (c : Char) : Option Nat :=
  if 48 ≤ c.toNat ∧ c.toNat ≤ 57 then some (c.toNat - 48)
  else if 97 ≤ c.toNat ∧ c.toNat ≤ 102 then some (c.toNat - 87)
  else if 65 ≤ c.toNat ∧ c.toNat ≤ 70 then some (c.toNat - 55)
  else none

/-- Modelled from the spec: standard hex decoding of a character list
(`base16ToBinary` is not under the provided sources); `none` models the
exception on malformed input. -/
def base16ToBinaryChars : List Char → Option (List Nat)
  | [] => some []
  | [_] => none
  | a :: b :: t =>
    match hexVal a, hexVal b, base16ToBinaryChars t with
    | some x, some y, some rest => some ((16 * x + y) :: rest)
    | _, _, _ => none

/-- First-occurrence removal of the substring `"0x"`, the semantics of
JavaScript's `privateKeyHex.replace('0x', '')`. -/
def removeFirst0x : List Char → List Char
  | '0' :: 'x' :: t => t
  | c :: t => c :: removeFirst0x t
  | [] => []

/-- Modelled from the spec: standard UTF-8 encoding of one character
(`utf8ToBytes` is not under the provided sources). -/
def utf8EncodeChar (c : Char) : List Nat :=
  let n := c.toNat
  if n < 128 then [n]
  else if n < 2048 then [192 + n / 64, 128 + n % 64]
  else if n < 65536 then [224 + n / 4096, 128 + n / 64 % 64, 128 + n % 64]
  else [240 + n / 262144, 128 + n / 4096 % 64, 128 + n / 64 % 64, 128 + n % 64]

/-- UTF-8 encoding of a string as a byte list. -/
def utf8ToBytes (s : String) : List Nat := s.data.flatMap utf8EncodeChar

/-! ### Sui personal-message signing (`suiSignPersonalMessage`)

The Ed25519/Blake2b primitives (`ed25519.sign`, `ed25519.getPublicKey`,
`blake2b` from the vendored noble libraries) are not under the provided
sources.  Modelled from the spec: they are abstract deterministic
functions, with the spec's length contracts (64-byte signature, 32-byte
public key, 32-byte digest) taken as hypotheses where needed. -/

/-- Abstract cryptographic primitives consumed by the signer. -/
structure SigPrimitives where
  sign : List Nat → List Nat → List Nat
  getPublicKey : List Nat → List Nat
  blake2b256 : List Nat → List Nat

/-- Envelope bytes assembled by `suiSignPersonalMessage` before base64:
`flag(0x00) || sig(64) || pubkey(32)` over the Blake2b-256 digest of the
intent bytes `[3, 0, 0]` followed by the BCS-serialized message. -/
def suiSignEnvelope (P : SigPrimitives) (message : List Nat)
    (keyBytes : List Nat) : List Nat :=
  let bcsMsg := bcsSerializeBytes message
  let intentMsg := [3, 0, 0] ++ bcsMsg
  let digest := P.blake2b256 intentMsg
  let sig := P.sign digest keyBytes
  let pubkey := P.getPublicKey keyBytes
  0 :: (sig ++ pubkey)

/-- Model of `suiSignPersonalMessage`: decode the hex private key (after
stripping a `0x` prefix), assemble the envelope, base64-encode it.  `none`
models the exception on malformed key hex. -/
def suiSignPersonalMessage (P : SigPrimitives) (message : List Nat)
    (privateKeyHex : String) : Option String :=
  (base16ToBinaryChars (removeFirst0x privateKeyHex.data)).map
    (fun keyBytes => base64Encode (suiSignEnvelope P message keyBytes))

/-- C1: for every message and every valid 32-byte private key,
`suiSignPersonalMessage` returns the base64 encoding of a 97-byte envelope
whose byte 0 is `0x00`, whose bytes 1–64 are the Ed25519 signature of the
Blake2b-256 digest of the intent bytes `[3,0,0]` followed by the BCS
encoding of the message, and whose bytes 65–96 are the public key derived
from the private key; the envelope length is 97 regardless of message
length. -/
theorem c1_envelope_structure (P : SigPrimitives) (message : List Nat)
    (privateKeyHex : String) (keyBytes : List Nat)
    (hkey : base16ToBinaryChars (removeFirst0x privateKeyHex.data) = some keyBytes)
    (hkeylen : keyBytes.length = 32)
    (hsig : ∀ d k, (P.sign d k).length = 64)
    (hpk : ∀ k, (P.getPublicKey k).length = 32) :
    suiSignPersonalMessage P message privateKeyHex =
      some (base64Encode (suiSignEnvelope P message keyBytes))
    ∧ (suiSignEnvelope P message keyBytes).length = 97
    ∧ (suiSignEnvelope P message keyBytes).take 1 = [0]
    ∧ ((suiSignEnvelope P message keyBytes).drop 1).take 64 =
        P.sign (P.blake2b256 ([3, 0, 0] ++ bcsSerializeBytes message)) keyBytes
    ∧ (suiSignEnvelope P message keyBytes).drop 65 = P.getPublicKey keyBytes := by
  refine ⟨by rw [suiSignPersonalMessage, hkey]; rfl, ?_, ?_, ?_, ?_⟩
  · show (0 :: (P.sign _ _ ++ P.getPublicKey _)).length = 97
    rw [List.length_cons, List.length_append, hsig, hpk]
  · rfl
  · show (P.sign _ _ ++ P.getPublicKey _).take 64 = _
    rw [← hsig (P.blake2b256 ([3, 0, 0] ++ bcsSerializeBytes message)) keyBytes,
      List.take_left]
  · show (P.sign _ _ ++ P.getPublicKey _).drop 64 = _
    rw [← hsig (P.blake2b256 ([3, 0, 0] ++ bcsSerializeBytes message)) keyBytes,
      List.drop_left]

/-- Dummy primitives with the contractual output lengths, used to witness
hypothesised theorems on concrete inputs. -/
def constPrimitives : SigPrimitives where
  sign := fun _ _ => List.replicate 64 1
  getPublicKey := fun _ => List.replicate 32 2
  blake2b256 := fun _ => List.replicate 32 3

/-- Concrete witness for `c1_envelope_structure` (32-byte zero key). -/
theorem c1_envelope_structure_witness :
    (suiSignEnvelope constPrimitives [104, 105] (List.replicate 32 0)).length = 97 :=
  (c1_envelope_structure constPrimitives [104, 105]
    "0x0000000000000000000000000000000000000000000000000000000000000000"
    (List.replicate 32 0) (by decide) (by decide)
    (fun _ _ => by simp [constPrimitives])
    (fun _ => by simp [constPrimitives])).2.1

/-- C8: `suiSignPersonalMessage` is deterministic — two invocations with
the same message and the same key return identical results.  The embedded
signing path is a pure function of (message, key): it contains no
randomness source, and the Ed25519/Blake2b primitives are deterministic
functions. -/
theorem c8_sign_deterministic (P : SigPrimitives) (m1 m2 : List Nat)
    (k1 k2 : String) (hm : m1 = m2) (hk : k1 = k2) :
    suiSignPersonalMessage P m1 k1 = suiSignPersonalMessage P m2 k2 := by
  rw [hm, hk]

/-- Concrete witness for `c8_sign_deterministic`. -/
theorem c8_sign_deterministic_witness :
    suiSignPersonalMessage constPrimitives [1, 2, 3] "00" =
      suiSignPersonalMessage constPrimitives [1, 2, 3] "00" :=
  c8_sign_deterministic constPrimitives [1, 2, 3] [1, 2, 3] "00" "00" rfl rfl

/-! ### Canonical trade-payload encoding (`signTradeRequest`)

The source is `JSON.stringify (payload, null, 2)` over a flat object of
payload fields followed by `suiSignPersonalMessage` on the UTF-8 bytes.
JavaScript values reaching the serializer are modelled by `JsValue`;
`JSON.stringify`'s rendering (insertion-ordered keys, 2-space indent,
quoted escaped strings, bare booleans, decimal numbers, `null` rendered,
`undefined`-valued fields omitted) is modelled by `jsonStringifyPretty`. -/

/-- Lowercase hexadecimal digit character (for JSON control escapes). -/
def hexDigitChar : Nat → Char
  | 0 => '0'
  | 1 => '1'
  | 2 => '2'
  | 3 => '3'
  | 4 => '4'
  | 5 => '5'
  | 6 => '6'
  | 7 => '7'
  | 8 => '8'
  | 9 => '9'
  | 10 => 'a'
  | 11 => 'b'
  | 12 => 'c'
  | 13 => 'd'
  | 14 => 'e'
  | _ => 'f'

/-- JSON string escaping for one character, as `JSON.stringify` performs
it. -/
def escapeJsonChar (c : Char) : List Char :=
  if c = '"' then ['\\', '"']
  else if c = '\\' then ['\\', '\\']
  else if c.toNat = 8 then ['\\', 'b']
  else if c.toNat = 9 then ['\\', 't']
  else if c.toNat = 10 then ['\\', 'n']
  else if c.toNat = 12 then ['\\', 'f']
  else if c.toNat = 13 then ['\\', 'r']
  else if c.toNat < 32 then
    ['\\', 'u', '0', '0', hexDigitChar (c.toNat / 16), hexDigitChar (c.toNat % 16)]
  else [c]

/-- Quoted, escaped JSON rendering of a string. -/
def jsonQuote (s : String) : List Char :=
  '"' :: (s.data.flatMap escapeJsonChar ++ ['"'])

/-- JavaScript values that may appear as fields of a payload object. -/
inductive JsValue where
  | jstr (s : String)
  | jbool (b : Bool)
  | jnum (n : Int)
  | jnull
  | jundefined
deriving DecidableEq

/-- `JSON.stringify`'s rendering of one field value; `none` means the
field is omitted (JavaScript `undefined`), never an error. -/
def jsonRenderValue : JsValue → Option (List Char)
  | .jstr s => some (jsonQuote s)
  | .jbool true => some "true".data
  | .jbool false => some "false".data
  | .jnum n => some (if n < 0 then '-' :: natDigits n.natAbs else natDigits n.natAbs)
  | .jnull => some "null".data
  | .jundefined => none

/-- Rendered `"key": value` lines of a flat object at one indent level. -/
def jsonFieldLines (fields : List (String × JsValue)) : List (List Char) :=
  fields.filterMap (fun kv => (jsonRenderValue kv.2).map
    (fun v => ' ' :: ' ' :: (jsonQuote kv.1 ++ (':' :: ' ' :: v))))

/-- Comma-newline join of rendered field lines. -/
def joinLines : List (List Char) → List Char
  | [] => []
  | [l] => l
  | l :: ls => l ++ (',' :: '\n' :: joinLines ls)

/-- Model of `JSON.stringify (payload, null, 2)` for a flat object with
insertion-ordered fields. -/
def jsonStringifyPretty (fields : List (String × JsValue)) : String :=
  let lines := jsonFieldLines fields
  if lines.isEmpty then "\x7b\x7d"
  else String.mk (('\x7b' :: '\n' :: joinLines lines) ++ ['\n', '\x7d'])

/-- Model of `signTradeRequest`: canonicalize the payload with
`JSON.stringify (payload, null, 2)` and Sui-sign the UTF-8 bytes. -/
def signTradeRequest (P : SigPrimitives) (payload : List (String × JsValue))
    (privateKeyHex : String) : Option String :=
  suiSignPersonalMessage P (utf8ToBytes (jsonStringifyPretty payload)) privateKeyHex

/-- C7 counterexample: a payload containing a `null`-valued field — a type
outside {string, boolean, number-as-string} — encodes successfully:
`JSON.stringify` silently renders it as `null` and `signTradeRequest`
returns a signature; no `UnsupportedFieldType` error exists in the code. -/
theorem c7_counterexample :
    jsonStringifyPretty
        [("type", JsValue.jstr "Bluefin Pro Margin Adjustment"), ("add", JsValue.jnull)] =
      "\x7b\n  \"type\": \"Bluefin Pro Margin Adjustment\",\n  \"add\": null\n\x7d"
    ∧ (signTradeRequest constPrimitives
        [("type", JsValue.jstr "Bluefin Pro Margin Adjustment"), ("add", JsValue.jnull)]
        "00").isSome = true := by
  constructor
  · decide
  · decide

/-- C7 (amended): the canonical encoder performs no runtime field-type
check and has no failure path: every field value other than `undefined` is
rendered by `JSON.stringify`'s standard rendering (`null` as `null`,
non-negative numbers in decimal, booleans bare), `undefined`-valued fields
are silently omitted, and `signTradeRequest` signs whatever bytes result;
field types are constrained only statically by the payload interfaces. -/
theorem c7_no_runtime_type_check (P : SigPrimitives)
    (payload : List (String × JsValue)) (keyHex : String) :
    (∀ kv ∈ payload, kv.2 ≠ JsValue.jundefined →
      (jsonRenderValue kv.2).isSome = true)
    ∧ jsonRenderValue JsValue.jnull = some "null".data
    ∧ (∀ n : Int, 0 ≤ n → jsonRenderValue (JsValue.jnum n) = some (natDigits n.natAbs))
    ∧ (∀ b, jsonRenderValue (JsValue.jbool b) =
        some (if b then "true".data else "false".data))
    ∧ jsonRenderValue JsValue.jundefined = none
    ∧ signTradeRequest P payload keyHex =
        suiSignPersonalMessage P (utf8ToBytes (jsonStringifyPretty payload)) keyHex := by
  refine ⟨?_, rfl, ?_, ?_, rfl, rfl⟩
  · intro kv _ hne
    cases h : kv.2 with
    | jstr s => rfl
    | jbool b => cases b <;> rfl
    | jnum n => rfl
    | jnull => rfl
    | jundefined => exact absurd h hne
  · intro n hn
    simp [jsonRenderValue, not_lt.mpr hn]
  · intro b
    cases b <;> rfl

/-- Concrete witness for `c7_no_runtime_type_check`. -/
theorem c7_no_runtime_type_check_witness :
    jsonRenderValue JsValue.jnull = some "null".data :=
  (c7_no_runtime_type_check constPrimitives [("add", JsValue.jnull)] "00").2.1

/-! ### Session manager token state (`authenticate`, `refreshAccessToken`,
`isAccessTokenExpired`, `isRefreshTokenValid`, `getAccessToken`)

The five `this.options` keys the auth flow reads and writes are modelled
as `TokenState`; clock values are exact rationals (`milliseconds ()`
passed in as `nowMs`, the predicates receive `nowMs / 1000`).  The network
call inside `authenticate` / `refreshAccessToken` is abstracted by an
`AuthResponse` parameter holding the transport-successful response body;
`safeString` / `safeNumber` with a default are modelled by `Option` and
`Option.getD`.  JavaScript exceptions are modelled by the `Option AuthErr`
component of each result: when it is `some`, the state component is the
state at throw time (the code throws before any mutation). -/

/-- The token-related `this.options` entries. -/
structure TokenState where
  accessToken : Option String
  refreshToken : Option String
  tokenSetAtSeconds : Option ℚ
  accessTokenValidForSeconds : Option ℚ
  refreshTokenValidForSeconds : Option ℚ
deriving DecidableEq

/-- Token state at client construction: every key unset. -/
def emptyTokenState : TokenState := ⟨none, none, none, none, none⟩

/-- Body of a transport-successful login/refresh response. -/
structure AuthResponse where
  accessToken : Option String
  refreshToken : Option String
  accessTokenValidForSeconds : Option ℚ
  refreshTokenValidForSeconds : Option ℚ
deriving DecidableEq

/-- The `AuthenticationError` thrown by the auth flow. -/
inductive AuthErr where
  | authenticationError
deriving DecidableEq

/-- Which renewal network call an execution performed. -/
inductive RenewalCall where
  | authCall
  | refreshCall
deriving DecidableEq

/-- Model of `authenticate`: the request-building and signing of the login
payload and the POST are abstracted by the `resp` parameter; the function
checks the response and stores the five token fields, throwing
`AuthenticationError` (with the state untouched) when `accessToken` is
absent. -/
def authenticate (st : TokenState) (nowMs : ℚ) (resp : AuthResponse) :
    TokenState × Option AuthErr :=
  match resp.accessToken with
  | none => (st, some .authenticationError)
  | some tok =>
    ({ accessToken := some tok
       refreshToken := resp.refreshToken
       tokenSetAtSeconds := some (nowMs / 1000)
       accessTokenValidForSeconds := some (resp.accessTokenValidForSeconds.getD 300)
       refreshTokenValidForSeconds := some (resp.refreshTokenValidForSeconds.getD 2592000) },
     none)

/-- Response-processing tail of `refreshAccessToken` (after the PUT to the
refresh endpoint): identical field storage, `AuthenticationError` before
any mutation when `accessToken` is absent. -/
def refreshStore (st : TokenState) (nowMs : ℚ) (resp : AuthResponse) :
    TokenState × Option AuthErr :=
  match resp.accessToken with
  | none => (st, some .authenticationError)
  | some tok =>
    ({ accessToken := some tok
       refreshToken := resp.refreshToken
       tokenSetAtSeconds := some (nowMs / 1000)
       accessTokenValidForSeconds := some (resp.accessTokenValidForSeconds.getD 300)
       refreshTokenValidForSeconds := some (resp.refreshTokenValidForSeconds.getD 2592000) },
     none)

/-- Model of `refreshAccessToken`: with no cached refresh token it
delegates to `authenticate`; otherwise it submits the refresh request
(abstracted by `refreshResp`) and stores the result.  The third component
records which renewal network call ran. -/
def refreshAccessToken (st : TokenState) (nowMs : ℚ)
    (authResp refreshResp : AuthResponse) :
    TokenState × Option AuthErr × List RenewalCall :=
  match st.refreshToken with
  | none =>
    let r := authenticate st nowMs authResp
    (r.1, r.2, [.authCall])
  | some _ =>
    let r := refreshStore st nowMs refreshResp
    (r.1, r.2, [.refreshCall])

/-- Model of `isAccessTokenExpired`: true when no access token or no issue
timestamp is recorded, or when `now >= setAt + lifetime * 0.8`. -/
def isAccessTokenExpired (st : TokenState) (nowSeconds : ℚ) : Bool :=
  match st.accessToken, st.tokenSetAtSeconds with
  | some _, some setAt =>
    decide (nowSeconds ≥ setAt + (st.accessTokenValidForSeconds.getD 300) * (8 / 10))
  | _, _ => true

/-- Model of `isRefreshTokenValid`: true when a refresh token and an issue
timestamp are recorded and `now < setAt + lifetime - 60`. -/
def isRefreshTokenValid (st : TokenState) (nowSeconds : ℚ) : Bool :=
  match st.refreshToken, st.tokenSetAtSeconds with
  | some _, some setAt =>
    decide (nowSeconds < setAt + (st.refreshTokenValidForSeconds.getD 2592000) - 60)
  | _, _ => false

/-- Model of `getAccessToken`: the components are the state after the
call, the thrown error (if any), the renewal network calls performed, and
the returned token (`none` when an error was thrown instead of
returning). -/
def getAccessToken (st : TokenState) (nowMs : ℚ)
    (authResp refreshResp : AuthResponse) :
    TokenState × Option AuthErr × List RenewalCall × Option String :=
  match st.accessToken with
  | none =>
    let r := authenticate st nowMs authResp
    (r.1, r.2, [.authCall], if r.2.isSome then none else r.1.accessToken)
  | some tok =>
    if isAccessTokenExpired st (nowMs / 1000) then
      if isRefreshTokenValid st (nowMs / 1000) then
        let r := refreshAccessToken st nowMs authResp refreshResp
        (r.1, r.2.1, r.2.2, if r.2.1.isSome then none else r.1.accessToken)
      else
        let r := authenticate st nowMs authResp
        (r.1, r.2, [.authCall], if r.2.isSome then none else r.1.accessToken)
    else (st, none, [], some tok)

theorem isRefreshTokenValid_refreshToken_isSome {st : TokenState} {now : ℚ}
    (h : isRefreshTokenValid st now = true) : ∃ rt, st.refreshToken = some rt := by
  unfold isRefreshTokenValid at h
  cases hrt : st.refreshToken with
  | none => rw [hrt] at h; cases hts : st.tokenSetAtSeconds <;> rw [hts] at h <;> simp at h
  | some rt => exact ⟨rt, rfl⟩

/-- C6: the token-state predicates are pure functions of the current time
and the stored fields: `isAccessTokenExpired` is true iff no access token
or no issue timestamp is recorded or `now ≥ issuedAt + accessLifetime *
0.8`; `isRefreshTokenValid` is true iff a refresh token and an issue
timestamp are recorded and `now < issuedAt + refreshLifetime - 60`
(lifetimes defaulting to 300 and 2 592 000 when unset). -/
theorem c6_state_predicates (st : TokenState) (now : ℚ) :
    (isAccessTokenExpired st now = true ↔
      st.accessToken = none ∨ st.tokenSetAtSeconds = none ∨
        ∃ setAt, st.tokenSetAtSeconds = some setAt ∧
          now ≥ setAt + (st.accessTokenValidForSeconds.getD 300) * (8 / 10))
    ∧ (isRefreshTokenValid st now = true ↔
      st.refreshToken ≠ none ∧
        ∃ setAt, st.tokenSetAtSeconds = some setAt ∧
          now < setAt + (st.refreshTokenValidForSeconds.getD 2592000) - 60) := by
  constructor
  · unfold isAccessTokenExpired
    cases ha : st.accessToken <;> cases hts : st.tokenSetAtSeconds <;> simp
  · unfold isRefreshTokenValid
    cases hr : st.refreshToken <;> cases hts : st.tokenSetAtSeconds <;> simp

/-- C5: `authenticate` (and likewise `refreshAccessToken` when a refresh
token is cached) throws `AuthenticationError` iff the transport-successful
response lacks `accessToken`; on throw the stored token state is unchanged
(the error surfaces before any mutation); on success all five fields are
stored, lifetimes defaulting to 300 s and 2 592 000 s when omitted. -/
theorem c5_auth_error_iff (st : TokenState) (nowMs : ℚ)
    (authResp resp : AuthResponse) (rt : String) (hrt : st.refreshToken = some rt) :
    ((authenticate st nowMs resp).2.isSome ↔ resp.accessToken = none)
    ∧ (resp.accessToken = none →
        authenticate st nowMs resp = (st, some AuthErr.authenticationError))
    ∧ (∀ tok, resp.accessToken = some tok →
        authenticate st nowMs resp =
          ({ accessToken := some tok
             refreshToken := resp.refreshToken
             tokenSetAtSeconds := some (nowMs / 1000)
             accessTokenValidForSeconds := some (resp.accessTokenValidForSeconds.getD 300)
             refreshTokenValidForSeconds :=
               some (resp.refreshTokenValidForSeconds.getD 2592000) }, none))
    ∧ ((refreshAccessToken st nowMs authResp resp).2.1.isSome ↔ resp.accessToken = none)
    ∧ (resp.accessToken = none →
        refreshAccessToken st nowMs authResp resp =
          (st, some AuthErr.authenticationError, [RenewalCall.refreshCall]))
    ∧ (∀ tok, resp.accessToken = some tok →
        refreshAccessToken st nowMs authResp resp =
          ({ accessToken := some tok
             refreshToken := resp.refreshToken
             tokenSetAtSeconds := some (nowMs / 1000)
             accessTokenValidForSeconds := some (resp.accessTokenValidForSeconds.getD 300)
             refreshTokenValidForSeconds :=
               some (resp.refreshTokenValidForSeconds.getD 2592000) },
            none, [RenewalCall.refreshCall])) := by
  cases hresp : resp.accessToken <;>
    simp [authenticate, refreshStore, refreshAccessToken, hrt, hresp]

/-- Token state with an access token at 80 % of its lifetime and a valid
refresh token, used for concrete witnesses. -/
def stExpiredRefreshable : TokenState :=
  ⟨some "a", some "r", some 0, some 300, some 2592000⟩

/-- Login/refresh response carrying fresh tokens. -/
def freshResp : AuthResponse := ⟨some "fresh", some "fr", none, none⟩

/-- Transport-successful response that lacks `accessToken`. -/
def failResp : AuthResponse := ⟨none, none, none, none⟩

/-- Concrete witness for `c5_auth_error_iff`. -/
theorem c5_auth_error_iff_witness :
    authenticate stExpiredRefreshable 0 failResp =
      (stExpiredRefreshable, some AuthErr.authenticationError) :=
  (c5_auth_error_iff stExpiredRefreshable 0 freshResp failResp "r" rfl).2.1 rfl

/-- C4 (amended): `getAccessToken` follows the implemented transition
rules — with no access token recorded it performs full authentication;
when renewal is required and the refresh token is valid it performs a
refresh, and a refresh failure propagates to the caller with the stored
state unchanged (there is no fallback to full authentication); when
renewal is required and the refresh token is not valid it performs full
authentication directly; otherwise it returns the cached access token
unchanged. -/
theorem c4_transition_rules (st : TokenState) (nowMs : ℚ)
    (authResp refreshResp : AuthResponse) :
    (st.accessToken = none →
      (getAccessToken st nowMs authResp refreshResp).2.2.1 = [RenewalCall.authCall]
      ∧ (getAccessToken st nowMs authResp refreshResp).1 =
          (authenticate st nowMs authResp).1
      ∧ (getAccessToken st nowMs authResp refreshResp).2.1 =
          (authenticate st nowMs authResp).2)
    ∧ (∀ tok, st.accessToken = some tok →
        isAccessTokenExpired st (nowMs / 1000) = true →
        isRefreshTokenValid st (nowMs / 1000) = true →
          (getAccessToken st nowMs authResp refreshResp).2.2.1 = [RenewalCall.refreshCall]
          ∧ (refreshResp.accessToken = none →
              getAccessToken st nowMs authResp refreshResp =
                (st, some AuthErr.authenticationError, [RenewalCall.refreshCall], none)))
    ∧ (∀ tok, st.accessToken = some tok →
        isAccessTokenExpired st (nowMs / 1000) = true →
        isRefreshTokenValid st (nowMs / 1000) = false →
          (getAccessToken st nowMs authResp refreshResp).2.2.1 = [RenewalCall.authCall])
    ∧ (∀ tok, st.accessToken = some tok →
        isAccessTokenExpired st (nowMs / 1000) = false →
          getAccessToken st nowMs authResp refreshResp = (st, none, [], some tok)) := by
  refine ⟨?_, ?_, ?_, ?_⟩
  · intro hA
    simp [getAccessToken, hA]
  · intro tok hA hexp hval
    obtain ⟨rt, hrt⟩ := isRefreshTokenValid_refreshToken_isSome hval
    constructor
    · simp [getAccessToken, hA, hexp, hval, refreshAccessToken, hrt]
    · intro hfail
      simp [getAccessToken, hA, hexp, hval, refreshAccessToken, hrt,
        refreshStore, hfail]
  · intro tok hA hexp hval
    simp [getAccessToken, hA, hexp, hval]
  · intro tok hA hexp
    simp [getAccessToken, hA, hexp]

/-- Concrete witness for `c4_transition_rules`. -/
theorem c4_transition_rules_witness :
    getAccessToken stExpiredRefreshable 1000000 freshResp failResp =
      (stExpiredRefreshable, some AuthErr.authenticationError,
        [RenewalCall.refreshCall], none) :=
  ((c4_transition_rules stExpiredRefreshable 1000000 freshResp failResp).2.1
    "a" rfl (by simp [isAccessTokenExpired, stExpiredRefreshable]; norm_num)
    (by simp [isRefreshTokenValid, stExpiredRefreshable]; norm_num)).2 rfl

/-- C4 counterexample: with an expired access token, a valid refresh
token, and a refresh response lacking `accessToken` (a refresh failure),
`getAccessToken` propagates the `AuthenticationError` with the state
unchanged and never performs the full authentication that would have
succeeded — refuting the claimed refresh-failure fallback. -/
theorem c4_counterexample :
    isAccessTokenExpired stExpiredRefreshable 1000 = true
    ∧ isRefreshTokenValid stExpiredRefreshable 1000 = true
    ∧ freshResp.accessToken.isSome = true
    ∧ getAccessToken stExpiredRefreshable 1000000 freshResp failResp =
        (stExpiredRefreshable, some AuthErr.authenticationError,
          [RenewalCall.refreshCall], none)
    ∧ RenewalCall.authCall ∉
        (getAccessToken stExpiredRefreshable 1000000 freshResp failResp).2.2.1 := by
  have hexp : isAccessTokenExpired stExpiredRefreshable 1000 = true := by
    simp [isAccessTokenExpired, stExpiredRefreshable]
    norm_num
  have hval : isRefreshTokenValid stExpiredRefreshable 1000 = true := by
    simp [isRefreshTokenValid, stExpiredRefreshable]
    norm_num
  have hrun : getAccessToken stExpiredRefreshable 1000000 freshResp failResp =
      (stExpiredRefreshable, some AuthErr.authenticationError,
        [RenewalCall.refreshCall], none) := by
    have h1000 : (1000000 : ℚ) / 1000 = 1000 := by norm_num
    simp only [stExpiredRefreshable] at hexp hval ⊢
    simp [getAccessToken, h1000, hexp, hval,
      refreshAccessToken, refreshStore, failResp]
  refine ⟨hexp, hval, rfl, hrun, ?_⟩
  rw [hrun]
  decide

/-- C10: a successful authenticate response containing an `accessToken`
but no `refreshToken` is not an error — the refresh token is stored as
absent and the call returns normally; `isRefreshTokenValid` is then false
at every time, so the next renewal after access-token expiry performs a
full authentication; and `refreshAccessToken` with no cached refresh token
delegates to `authenticate` instead of calling the refresh endpoint. -/
theorem c10_no_refresh_token_in_response (st : TokenState) (nowMs : ℚ)
    (resp : AuthResponse) (tok : String)
    (haccess : resp.accessToken = some tok) (hrefresh : resp.refreshToken = none) :
    (authenticate st nowMs resp).2 = none
    ∧ (authenticate st nowMs resp).1.refreshToken = none
    ∧ (∀ t : ℚ, isRefreshTokenValid (authenticate st nowMs resp).1 t = false)
    ∧ (∀ (nowMs2 : ℚ) (aR rR : AuthResponse),
        isAccessTokenExpired (authenticate st nowMs resp).1 (nowMs2 / 1000) = true →
        (getAccessToken (authenticate st nowMs resp).1 nowMs2 aR rR).2.2.1 =
          [RenewalCall.authCall])
    ∧ (∀ (st2 : TokenState) (nowMs2 : ℚ) (aR rR : AuthResponse),
        st2.refreshToken = none →
        refreshAccessToken st2 nowMs2 aR rR =
          ((authenticate st2 nowMs2 aR).1, (authenticate st2 nowMs2 aR).2,
            [RenewalCall.authCall])) := by
  have hstate : authenticate st nowMs resp =
      ({ accessToken := some tok
         refreshToken := none
         tokenSetAtSeconds := some (nowMs / 1000)
         accessTokenValidForSeconds := some (resp.accessTokenValidForSeconds.getD 300)
         refreshTokenValidForSeconds :=
           some (resp.refreshTokenValidForSeconds.getD 2592000) }, none) := by
    simp [authenticate, haccess, hrefresh]
  refine ⟨by rw [hstate], by rw [hstate], ?_, ?_, ?_⟩
  · intro t
    rw [hstate]
    simp [isRefreshTokenValid]
  · intro nowMs2 aR rR hexp
    rw [hstate] at hexp ⊢
    have hval : isRefreshTokenValid
        ({ accessToken := some tok
           refreshToken := none
           tokenSetAtSeconds := some (nowMs / 1000)
           accessTokenValidForSeconds := some (resp.accessTokenValidForSeconds.getD 300)
           refreshTokenValidForSeconds :=
             some (resp.refreshTokenValidForSeconds.getD 2592000) } : TokenState)
        (nowMs2 / 1000) = false := by
      simp [isRefreshTokenValid]
    simp [getAccessToken, hexp, hval]
  · intro st2 nowMs2 aR rR h2
    simp [refreshAccessToken, h2]

/-- Concrete witness for `c10_no_refresh_token_in_response`. -/
theorem c10_no_refresh_token_in_response_witness :
    (authenticate emptyTokenState 0 ⟨some "tok", none, none, none⟩).1.refreshToken =
      none :=
  (c10_no_refresh_token_in_response emptyTokenState 0
    ⟨some "tok", none, none, none⟩ "tok" rfl rfl).2.1

/-! ### Interleaved `getAccessToken` callers (single-flight question)

JavaScript's event loop runs the synchronous segment between two `await`
points atomically; a call suspends exactly at the renewal network call.
Two concurrent `getAccessToken` invocations on one session are modelled as
two callers over the shared `TokenState`: a caller's first atomic segment
reads the shared state and either returns the cached token or fires one
renewal network call and suspends (`renewalDecision`, the code up to
`await` in `getAccessToken` / the delegating head of
`refreshAccessToken`); a suspended caller's completion applies the
response-processing tail and publishes the new state
(`completeRenewal`). -/

/-- Decision taken by the synchronous prefix of one `getAccessToken`
call: fire a renewal network call (left) or return the cached token
without any network call (right). -/
def renewalDecision (st : TokenState) (nowMs : ℚ) : Sum RenewalCall (Option String) :=
  match st.accessToken with
  | none => Sum.inl RenewalCall.authCall
  | some tok =>
    if isAccessTokenExpired st (nowMs / 1000) then
      if isRefreshTokenValid st (nowMs / 1000) then
        match st.refreshToken with
        | none => Sum.inl RenewalCall.authCall
        | some _ => Sum.inl RenewalCall.refreshCall
      else Sum.inl RenewalCall.authCall
    else Sum.inr (some tok)

/-- Response-processing tail run when a suspended renewal call resumes. -/
def completeRenewal (st : TokenState) (nowMs : ℚ) (c : RenewalCall)
    (authResp refreshResp : AuthResponse) : TokenState × Option AuthErr :=
  match c with
  | .authCall => authenticate st nowMs authResp
  | .refreshCall => refreshStore st nowMs refreshResp

/-- Progress of one caller through `getAccessToken`. -/
inductive CallerState where
  | ready
  | awaiting (c : RenewalCall)
  | finishedOk (tok : Option String)
  | finishedErr
deriving DecidableEq

/-- Shared session state plus the two callers' positions. -/
structure SessConfig where
  tokens : TokenState
  caller1 : CallerState
  caller2 : CallerState
deriving DecidableEq

/-- Interleaving small-step semantics of two concurrent `getAccessToken`
calls sharing one `TokenState`: each step runs one caller's next atomic
segment. -/
inductive SessStep (nowMs : ℚ) (authResp refreshResp : AuthResponse) :
    SessConfig → SessConfig → Prop where
  | start1 (cfg : SessConfig) (c : RenewalCall)
      (hready : cfg.caller1 = CallerState.ready)
      (hdec : renewalDecision cfg.tokens nowMs = Sum.inl c) :
      SessStep nowMs authResp refreshResp cfg
        { cfg with caller1 := CallerState.awaiting c }
  | cacheHit1 (cfg : SessConfig) (t : Option String)
      (hready : cfg.caller1 = CallerState.ready)
      (hdec : renewalDecision cfg.tokens nowMs = Sum.inr t) :
      SessStep nowMs authResp refreshResp cfg
        { cfg with caller1 := CallerState.finishedOk t }
  | complete1 (cfg : SessConfig) (c : RenewalCall)
      (hwait : cfg.caller1 = CallerState.awaiting c) :
      SessStep nowMs authResp refreshResp cfg
        { cfg with
            tokens := (completeRenewal cfg.tokens nowMs c authResp refreshResp).1
            caller1 :=
              if (completeRenewal cfg.tokens nowMs c authResp refreshResp).2.isSome then
                CallerState.finishedErr
              else
                CallerState.finishedOk
                  (completeRenewal cfg.tokens nowMs c authResp refreshResp).1.accessToken }
  | start2 (cfg : SessConfig) (c : RenewalCall)
      (hready : cfg.caller2 = CallerState.ready)
      (hdec : renewalDecision cfg.tokens nowMs = Sum.inl c) :
      SessStep nowMs authResp refreshResp cfg
        { cfg with caller2 := CallerState.awaiting c }
  | cacheHit2 (cfg : SessConfig) (t : Option String)
      (hready : cfg.caller2 = CallerState.ready)
      (hdec : renewalDecision cfg.tokens nowMs = Sum.inr t) :
      SessStep nowMs authResp refreshResp cfg
        { cfg with caller2 := CallerState.finishedOk t }
  | complete2 (cfg : SessConfig) (c : RenewalCall)
      (hwait : cfg.caller2 = CallerState.awaiting c) :
      SessStep nowMs authResp refreshResp cfg
        { cfg with
            tokens := (completeRenewal cfg.tokens nowMs c authResp refreshResp).1
            caller2 :=
              if (completeRenewal cfg.tokens nowMs c authResp refreshResp).2.isSome then
                CallerState.finishedErr
              else
                CallerState.finishedOk
                  (completeRenewal cfg.tokens nowMs c authResp refreshResp).1.accessToken }

/-- Both callers have a renewal network call in flight. -/
def bothInFlight (cfg : SessConfig) : Bool :=
  match cfg.caller1, cfg.caller2 with
  | CallerState.awaiting _, CallerState.awaiting _ => true
  | _, _ => false

/-- Login/refresh response used in the concurrency scenarios. -/
def okResp : AuthResponse := ⟨some "tok", some "rtok", none, none⟩

/-- Both callers about to call `getAccessToken` on a fresh session. -/
def sessInit : SessConfig := ⟨emptyTokenState, CallerState.ready, CallerState.ready⟩

/-- Caller 1 suspended on its authenticate call, caller 2 not yet run. -/
def sessMid : SessConfig :=
  ⟨emptyTokenState, CallerState.awaiting RenewalCall.authCall, CallerState.ready⟩

/-- Both callers suspended on their own authenticate calls. -/
def sessBoth : SessConfig :=
  ⟨emptyTokenState, CallerState.awaiting RenewalCall.authCall,
    CallerState.awaiting RenewalCall.authCall⟩

/-- C9 counterexample: from a fresh session, the interleaving in which
caller 1 runs to its network call and then caller 2 runs its synchronous
prefix is reachable and leaves two renewal calls in flight at once — the
second caller does not wait for or reuse the in-flight renewal, refuting
the at-most-one-renewal-in-flight claim. -/
theorem c9_counterexample :
    Relation.ReflTransGen (SessStep 0 okResp okResp) sessInit sessBoth
    ∧ bothInFlight sessBoth = true ∧ bothInFlight sessInit = false := by
  refine ⟨?_, rfl, rfl⟩
  have s1 : SessStep 0 okResp okResp sessInit sessMid :=
    SessStep.start1 sessInit RenewalCall.authCall rfl rfl
  have s2 : SessStep 0 okResp okResp sessMid sessBoth :=
    SessStep.start2 sessMid RenewalCall.authCall rfl rfl
  exact Relation.ReflTransGen.tail (Relation.ReflTransGen.single s1) s2

/-- C9 (amended): `getAccessToken` has no single-flight guard — whenever
one caller's renewal is in flight and the shared state still has no access
token, a second ready caller's next step issues its own authenticate call
(rather than waiting and reusing the in-flight result); within a single
invocation, at most one renewal network call is made. -/
theorem c9_no_single_flight (cfg : SessConfig) (nowMs : ℚ)
    (aR rR : AuthResponse) (c : RenewalCall)
    (h1 : cfg.caller1 = CallerState.awaiting c)
    (h2 : cfg.caller2 = CallerState.ready)
    (h3 : cfg.tokens.accessToken = none) :
    SessStep nowMs aR rR cfg
      { cfg with caller2 := CallerState.awaiting RenewalCall.authCall }
    ∧ ∀ (st : TokenState) (ms : ℚ) (a r : AuthResponse),
        ((getAccessToken st ms a r).2.2.1).length ≤ 1 := by
  constructor
  · refine SessStep.start2 cfg RenewalCall.authCall h2 ?_
    unfold renewalDecision
    rw [h3]
  · intro st ms a r
    cases hA : st.accessToken with
    | none => simp [getAccessToken, hA]
    | some tok =>
      simp only [getAccessToken, hA]
      split
      · split
        · unfold refreshAccessToken
          cases st.refreshToken <;> simp
        · simp
      · simp

/-- Concrete witness for `c9_no_single_flight`. -/
theorem c9_no_single_flight_witness :
    SessStep 0 okResp okResp sessMid
      { sessMid with caller2 := CallerState.awaiting RenewalCall.authCall } :=
  (c9_no_single_flight sessMid 0 okResp okResp RenewalCall.authCall rfl rfl rfl).1

/-! ### E9 decimal scaling (`parseE9`, `toE9`)

`parseE9` and `toE9` shift a decimal string's point nine places left /
right by adjusting the `decimals` field of a `Precise` value and reducing.
The `Precise` class itself lives in `base/Precise.js`, which is not under
the provided sources.  Modelled from the spec: an exact arbitrary-precision
decimal value `integer × 10^(-decimals)` built from a decimal string with
no binary floating point; trailing zeros of the integer are trimmed into
the exponent by `reduce`, and `toChars` renders the canonical minimal
decimal string (appending zeros for a negative `decimals`, padding and
placing the point for a positive one), matching the repository's own test
vectors (`toE9('1') = '1000000000'`, `parseE9('500000000') = '0.5'`,
round-trips of `'99999999.999999999'`, …). -/

/-- Fuel-driven worker for `stripZeros`. -/
def stripZerosAux : Nat → Nat → Nat × Nat
  | 0, n => (n, 0)
  | fuel + 1, n =>
    if n % 10 = 0 ∧ n ≠ 0 then
      let r := stripZerosAux fuel (n / 10)
      (r.1, r.2 + 1)
    else (n, 0)

/-- Factor a positive natural as `core * 10 ^ count` with `core` not
divisible by 10 (the trailing-zero trim loop of `Precise.reduce`). -/
def stripZeros (n : Nat) : Nat × Nat := stripZerosAux n n

theorem stripZerosAux_fuel {f1 f2 n : Nat} (h1 : n ≤ f1) (h2 : n ≤ f2) :
    stripZerosAux f1 n = stripZerosAux f2 n := by
  induction f1 using Nat.strong_induction_on generalizing n f2 with
  | _ f1 ih =>
    match f1, f2 with
    | 0, f2 =>
      have : n = 0 := by omega
      subst this
      cases f2 with
      | zero => rfl
      | succ f2 => simp [stripZerosAux]
    | f1 + 1, 0 =>
      have : n = 0 := by omega
      subst this
      simp [stripZerosAux]
    | f1 + 1, f2 + 1 =>
      simp only [stripZerosAux]
      split
      · next h =>
        have h10 : 10 ∣ n := Nat.dvd_of_mod_eq_zero h.1
        have hge : 10 ≤ n := Nat.le_of_dvd (by omega) h10
        have heq := ih f1 (by omega) (show n / 10 ≤ f1 by omega)
          (show n / 10 ≤ f2 by omega)
        rw [heq]
      · rfl

/-- One-step unfolding of `stripZeros` (hides the fuel argument). -/
theorem stripZeros_eq (n : Nat) :
    stripZeros n = if n % 10 = 0 ∧ n ≠ 0 then
      ((stripZeros (n / 10)).1, (stripZeros (n / 10)).2 + 1)
    else (n, 0) := by
  show stripZerosAux n n = _
  cases n with
  | zero => simp [stripZerosAux]
  | succ m =>
    simp only [stripZerosAux]
    split
    · next h =>
      have h10 : 10 ∣ m + 1 := Nat.dvd_of_mod_eq_zero h.1
      have hge : 10 ≤ m + 1 := Nat.le_of_dvd (by omega) h10
      rw [stripZerosAux_fuel (show (m+1)/10 ≤ m by omega) (le_refl _)]
      rfl
    · rfl

theorem stripZeros_spec (n : Nat) (hn : n ≠ 0) :
    (stripZeros n).1 * 10 ^ (stripZeros n).2 = n
    ∧ (stripZeros n).1 % 10 ≠ 0 ∧ (stripZeros n).1 ≠ 0 := by
  induction n using Nat.strong_induction_on with
  | _ n ih =>
    rw [stripZeros_eq]
    split
    · next h =>
      have h10 : 10 ∣ n := Nat.dvd_of_mod_eq_zero h.1
      have hge : 10 ≤ n := Nat.le_of_dvd (by omega) h10
      have hlt : n / 10 < n := Nat.div_lt_self (by omega) (by omega)
      have hne : n / 10 ≠ 0 := by omega
      obtain ⟨hval, hmod, h0⟩ := ih (n / 10) hlt hne
      refine ⟨?_, hmod, h0⟩
      rw [pow_succ, ← Nat.mul_assoc, hval]
      omega
    · next h =>
      push_neg at h
      exact ⟨by simp, fun hmod => hn (h hmod), hn⟩

theorem stripZeros_of_not_dvd {n : Nat} (h : n % 10 ≠ 0) :
    stripZeros n = (n, 0) := by
  rw [stripZeros_eq]
  simp [h]

theorem stripZeros_mul_pow {m : Nat} (k : Nat) (hm : m % 10 ≠ 0) (h0 : m ≠ 0) :
    stripZeros (m * 10 ^ k) = (m, k) := by
  induction k with
  | zero => simpa using stripZeros_of_not_dvd hm
  | succ k ih =>
    rw [stripZeros_eq]
    have hmod : m * 10 ^ (k + 1) % 10 = 0 := by
      have : (10 : Nat) ∣ m * 10 ^ (k + 1) := ⟨m * 10 ^ k, by ring⟩
      omega
    have hne : m * 10 ^ (k + 1) ≠ 0 := by positivity
    have hdiv : m * 10 ^ (k + 1) / 10 = m * 10 ^ k := by
      rw [pow_succ, ← Nat.mul_assoc]
      exact Nat.mul_div_cancel _ (by omega)
    rw [if_pos (show _ ∧ _ from ⟨hmod, hne⟩), hdiv, ih]

theorem digitsToNat_cons_zero (l : List Char) :
    digitsToNat ('0' :: l) = digitsToNat l := rfl

theorem digitsToNat_replicate_zero_append (k : Nat) (l : List Char) :
    digitsToNat (List.replicate k '0' ++ l) = digitsToNat l := by
  induction k with
  | zero => rfl
  | succ k ih => simpa [List.replicate_succ] using ih

theorem digitsToNat_append_zeros (l : List Char) (k : Nat) :
    digitsToNat (l ++ List.replicate k '0') = digitsToNat l * 10 ^ k := by
  induction k with
  | zero => simp
  | succ k ih =>
    rw [List.replicate_succ', ← List.append_assoc]
    show digitsToNat ((l ++ List.replicate k '0') ++ ['0']) = _
    simp only [digitsToNat] at *
    rw [foldl_digits_append, ih]
    show 10 * (digitsToNat l * 10 ^ k) + 0 = digitsToNat l * 10 ^ (k + 1)
    ring

/-- Modelled from the spec: the exact decimal value `integer ×
10^(-decimals)` held by a `Precise` instance (`base/Precise.js` is not
under the provided sources). -/
structure Precise where
  integer : Int
  decimals : Int
deriving DecidableEq

/-- Modelled from the spec: `Precise.reduce` trims the trailing zeros of
the integer into the exponent (canonical minimal representation); an
integer of 0 resets `decimals` to 0. -/
def Precise.reduce (p : Precise) : Precise :=
  if p.integer = 0 then ⟨0, 0⟩
  else
    let r := stripZeros p.integer.natAbs
    ⟨if p.integer < 0 then -(r.1 : Int) else (r.1 : Int), p.decimals - r.2⟩

/-- Leading `-` of a rendered integer, empty for a non-negative one. -/
def signList (m : Int) : List Char := if m < 0 then ['-'] else []

/-- Left-pad with `'0'` up to length `n` (JavaScript `padStart(n, '0')`). -/
def padStart (l : List Char) (n : Nat) : List Char :=
  List.replicate (n - l.length) '0' ++ l

/-- Modelled from the spec: render `m × 10^(-d)` as a decimal string — for
`d ≤ 0` the digits of `m` followed by `-d` zeros; for `d > 0` the digits
padded to `d` places with the point inserted, with a leading `0.` when no
integer digits remain. -/
def renderPair (m : Int) (d : Int) : List Char :=
  let digs := natDigits m.natAbs
  if d ≤ 0 then signList m ++ digs ++ List.replicate (-d).toNat '0'
  else
    let padded := padStart digs d.toNat
    if padded.length = d.toNat then signList m ++ ('0' :: '.' :: padded)
    else signList m ++ (padded.take (padded.length - d.toNat) ++
      ('.' :: padded.drop (padded.length - d.toNat)))

/-- Modelled from the spec: `Precise.toString`, the canonical minimal
rendering of the reduced value. -/
def Precise.toChars (p : Precise) : List Char :=
  renderPair p.reduce.integer p.reduce.decimals

/-- Split a character list at its first `'.'` (JavaScript `indexOf('.')`
plus `replace('.', '')` semantics): the part before the first dot, and the
part after it when one exists. -/
def splitAtDot : List Char → List Char × Option (List Char)
  | [] => ([], none)
  | c :: t =>
    if c = '.' then ([], some t)
    else
      let r := splitAtDot t
      (c :: r.1, r.2)

/-- Modelled from the spec: integer-literal parsing (JavaScript `BigInt`
of the de-dotted mantissa string) — an optional `-` sign followed by at
least one decimal digit; `none` models the thrown exception on anything
else. -/
def parseIntChars : List Char → Option Int
  | [] => none
  | c :: t =>
    if c = '-' then
      if t ≠ [] ∧ t.all isDigitChar then some (-(digitsToNat t : Int)) else none
    else if (c :: t).all isDigitChar then some ((digitsToNat (c :: t) : Int)) else none

/-- Modelled from the spec: the `Precise` constructor's string parsing —
fractional-digit count from the first dot, mantissa from the string with
that dot removed. -/
def parseDecimalChars (s : List Char) : Option (Int × Nat) :=
  let r := splitAtDot s
  let frac := r.2.getD []
  (parseIntChars (r.1 ++ frac)).map (fun m => (m, frac.length))

/-- `Precise` built from a decimal string. -/
def Precise.ofChars (s : List Char) : Option Precise :=
  (parseDecimalChars s).map (fun md => ⟨md.1, (md.2 : Int)⟩)

/-- Character-level model of `parseE9`: `decimals += 9`, reduce, render. -/
def parseE9chars (s : List Char) : Option (List Char) :=
  (Precise.ofChars s).map (fun p => Precise.toChars ⟨p.integer, p.decimals + 9⟩)

/-- Character-level model of `toE9`: `decimals -= 9`, reduce, render. -/
def toE9chars (s : List Char) : Option (List Char) :=
  (Precise.ofChars s).map (fun p => Precise.toChars ⟨p.integer, p.decimals - 9⟩)

/-- Model of `parseE9` (`Str → Str`): `undefined` propagates as `none`,
which also models the constructor exception on an unparsable string. -/
def parseE9 : Option String → Option String
  | none => none
  | some s => (parseE9chars s.data).map String.mk

/-- Model of `toE9` (`Str → Str`), as for `parseE9`. -/
def toE9 : Option String → Option String
  | none => none
  | some s => (toE9chars s.data).map String.mk

/-- Decidable test that a decimal string is in the scaler's canonical
minimal form: it parses, it has no trailing fractional zero (a positive
`decimals` demands an integer not divisible by 10), and it equals the
standard rendering of its own value — no superfluous leading zeros, no
bare or trailing dot, no `-0`. -/
def isCanonicalDecimal (s : List Char) : Bool :=
  match parseDecimalChars s with
  | none => false
  | some (m, d) =>
    (decide (d = 0) || decide (¬ m % 10 = 0)) && decide (renderPair m (d : Int) = s)

/-- Number of fractional digits of a decimal string. -/
def fracDigits (s : List Char) : Nat := ((splitAtDot s).2.getD []).length

theorem natDigits_mul_ten {a : Nat} (ha : a ≠ 0) :
    natDigits (a * 10) = natDigits a ++ ['0'] := by
  rw [natDigits_eq (a * 10)]
  have h10 : ¬ a * 10 < 10 := by omega
  rw [if_neg h10]
  have hd : a * 10 / 10 = a := by omega
  have hm : a * 10 % 10 = 0 := by omega
  rw [hd, hm]
  rfl

theorem natDigits_mul_pow {a : Nat} (k : Nat) (ha : a ≠ 0) :
    natDigits (a * 10 ^ k) = natDigits a ++ List.replicate k '0' := by
  induction k with
  | zero => simp
  | succ k ih =>
    have hrw : a * 10 ^ (k + 1) = a * 10 ^ k * 10 := by ring
    have hnz : a * 10 ^ k ≠ 0 := by positivity
    rw [hrw, natDigits_mul_ten hnz, ih, List.replicate_succ', List.append_assoc]

theorem ne_dot_of_isDigitChar {c : Char} (h : isDigitChar c = true) : c ≠ '.' := by
  intro he
  rw [he] at h
  exact absurd h (by decide)

theorem ne_dash_of_isDigitChar {c : Char} (h : isDigitChar c = true) : ¬ c = '-' := by
  intro he
  rw [he] at h
  exact absurd h (by decide)

theorem natDigits_all (n : Nat) : (natDigits n).all isDigitChar = true :=
  List.all_eq_true.mpr (fun c hc => mem_natDigits_isDigit n c hc)

theorem replicate_zero_all (k : Nat) :
    (List.replicate k '0').all isDigitChar = true :=
  List.all_eq_true.mpr (fun c hc => by rw [List.eq_of_mem_replicate hc]; decide)

theorem mem_signList {m : Int} {c : Char} (h : c ∈ signList m) : c = '-' := by
  unfold signList at h
  split at h
  · simpa using h
  · simp at h

theorem signList_mul_pow (m : Int) (k : Nat) :
    signList (m * 10 ^ k) = signList m := by
  have hp : (0 : Int) < 10 ^ k := pow_pos (by norm_num) k
  unfold signList
  by_cases hm : m < 0
  · rw [if_pos hm, if_pos (mul_neg_of_neg_of_pos hm hp)]
  · rw [if_neg hm, if_neg (not_lt.mpr (mul_nonneg (not_lt.mp hm) hp.le))]

theorem splitAtDot_no_dot {l : List Char} (h : ∀ c ∈ l, c ≠ '.') :
    splitAtDot l = (l, none) := by
  induction l with
  | nil => rfl
  | cons c t ih =>
    have hc : ¬ c = '.' := h c (by simp)
    simp only [splitAtDot, if_neg hc]
    rw [ih (fun x hx => h x (by simp [hx]))]

theorem splitAtDot_append {a b : List Char} (h : ∀ c ∈ a, c ≠ '.') :
    splitAtDot (a ++ '.' :: b) = (a, some b) := by
  induction a with
  | nil => simp [splitAtDot]
  | cons c t ih =>
    have hc : ¬ c = '.' := h c (by simp)
    simp only [List.cons_append, splitAtDot, if_neg hc, List.append_eq]
    rw [ih (fun x hx => h x (by simp [hx]))]

theorem parseIntChars_digits {l : List Char} (hne : l ≠ [])
    (hdig : l.all isDigitChar = true) :
    parseIntChars l = some ((digitsToNat l : Nat) : Int) := by
  match l, hne with
  | c :: t, _ =>
    have hc : isDigitChar c = true := List.all_eq_true.mp hdig c (by simp)
    have hcd : ¬ c = '-' := ne_dash_of_isDigitChar hc
    simp only [parseIntChars, if_neg hcd, if_pos hdig]

theorem parseIntChars_signed (m : Int) (l : List Char) (hne : l ≠ [])
    (hdig : l.all isDigitChar = true) (hval : digitsToNat l = m.natAbs) :
    parseIntChars (signList m ++ l) = some m := by
  by_cases hneg : m < 0
  · have hs : signList m = ['-'] := by unfold signList; rw [if_pos hneg]
    rw [hs]
    show parseIntChars ('-' :: l) = some m
    simp only [parseIntChars]
    rw [if_pos trivial, if_pos (show l ≠ [] ∧ l.all isDigitChar = true from ⟨hne, hdig⟩),
      hval]
    congr 1
    omega
  · have hs : signList m = [] := by unfold signList; rw [if_neg hneg]
    rw [hs, List.nil_append, parseIntChars_digits hne hdig, hval]
    congr 1
    omega

theorem padStart_length (l : List Char) (n : Nat) :
    (padStart l n).length = max n l.length := by
  simp only [padStart, List.length_append, List.length_replicate]
  omega

theorem padStart_all_digits {l : List Char} (n : Nat)
    (h : l.all isDigitChar = true) : (padStart l n).all isDigitChar = true := by
  apply List.all_eq_true.mpr
  intro c hc
  rcases List.mem_append.mp hc with h1 | h2
  · rw [List.eq_of_mem_replicate h1]; decide
  · exact List.all_eq_true.mp h c h2

theorem digitsToNat_padStart (l : List Char) (n : Nat) :
    digitsToNat (padStart l n) = digitsToNat l :=
  digitsToNat_replicate_zero_append _ _

theorem parseDecimalChars_sign_digits (m : Int) (l : List Char) (hne : l ≠ [])
    (hdig : l.all isDigitChar = true) (hval : digitsToNat l = m.natAbs) :
    parseDecimalChars (signList m ++ l) = some (m, 0) := by
  have hnd : ∀ c ∈ signList m ++ l, c ≠ '.' := by
    intro c hc
    rcases List.mem_append.mp hc with h1 | h2
    · rw [mem_signList h1]; decide
    · exact ne_dot_of_isDigitChar (List.all_eq_true.mp hdig c h2)
  unfold parseDecimalChars
  rw [splitAtDot_no_dot hnd]
  simp only [Option.getD_none, List.append_nil]
  rw [parseIntChars_signed m l hne hdig hval]
  rfl

theorem parseDecimalChars_sign_dotted (m : Int) (x y : List Char)
    (hnex : x ≠ []) (hx : x.all isDigitChar = true) (hy : y.all isDigitChar = true)
    (hval : digitsToNat (x ++ y) = m.natAbs) :
    parseDecimalChars (signList m ++ (x ++ ('.' :: y))) = some (m, y.length) := by
  have hnd : ∀ c ∈ signList m ++ x, c ≠ '.' := by
    intro c hc
    rcases List.mem_append.mp hc with h1 | h2
    · rw [mem_signList h1]; decide
    · exact ne_dot_of_isDigitChar (List.all_eq_true.mp hx c h2)
  have hassoc : signList m ++ (x ++ ('.' :: y)) = (signList m ++ x) ++ ('.' :: y) := by
    rw [List.append_assoc]
  unfold parseDecimalChars
  rw [hassoc, splitAtDot_append hnd]
  simp only [Option.getD_some]
  have hall : (x ++ y).all isDigitChar = true := by
    rw [List.all_append, hx, hy]
    rfl
  have hne2 : x ++ y ≠ [] := by
    intro h
    exact hnex (List.append_eq_nil.mp h).1
  rw [List.append_assoc, parseIntChars_signed m (x ++ y) hne2 hall hval]
  rfl

theorem parse_render_nonpos (m : Int) (k : Nat) :
    parseDecimalChars (renderPair m (-(k : Int))) = some (m * (10 : Int) ^ k, 0) := by
  have hle : (-(k : Int)) ≤ 0 := by omega
  have htn : (-(-(k : Int))).toNat = k := by omega
  unfold renderPair
  rw [if_pos hle, htn]
  have hall : (natDigits m.natAbs ++ List.replicate k '0').all isDigitChar = true := by
    rw [List.all_append, natDigits_all, replicate_zero_all]
    rfl
  have hne : natDigits m.natAbs ++ List.replicate k '0' ≠ [] := by
    intro h
    exact natDigits_ne_nil _ (List.append_eq_nil.mp h).1
  have hval : digitsToNat (natDigits m.natAbs ++ List.replicate k '0') =
      (m * (10 : Int) ^ k).natAbs := by
    rw [digitsToNat_append_zeros, digitsToNat_natDigits, Int.natAbs_mul, Int.natAbs_pow]
    rfl
  have hsign : signList m = signList (m * (10 : Int) ^ k) := (signList_mul_pow m k).symm
  rw [hsign, List.append_assoc]
  exact parseDecimalChars_sign_digits _ _ hne hall hval

theorem parse_render_nonneg (m : Int) (dn : Nat) :
    parseDecimalChars (renderPair m (dn : Int)) = some (m, dn) := by
  cases dn with
  | zero =>
    have h := parse_render_nonpos m 0
    simpa using h
  | succ d =>
    have hgt : ¬ ((d + 1 : Nat) : Int) ≤ 0 := by omega
    have htn : (((d + 1 : Nat) : Int)).toNat = d + 1 := by omega
    unfold renderPair
    rw [if_neg hgt, htn]
    have hpl : (padStart (natDigits m.natAbs) (d + 1)).length =
        max (d + 1) (natDigits m.natAbs).length := padStart_length _ _
    have hpad_dig : (padStart (natDigits m.natAbs) (d + 1)).all isDigitChar = true :=
      padStart_all_digits _ (natDigits_all _)
    have hpadval : digitsToNat (padStart (natDigits m.natAbs) (d + 1)) = m.natAbs := by
      rw [digitsToNat_padStart, digitsToNat_natDigits]
    by_cases heq : (padStart (natDigits m.natAbs) (d + 1)).length = d + 1
    · rw [if_pos heq]
      have happ : ('0' :: '.' ::
          padStart (natDigits m.natAbs) (d + 1)) =
          ['0'] ++ ('.' :: padStart (natDigits m.natAbs) (d + 1)) := rfl
      rw [happ]
      have hval : digitsToNat (['0'] ++ padStart (natDigits m.natAbs) (d + 1)) =
          m.natAbs := by
        rw [show (['0'] ++ padStart (natDigits m.natAbs) (d + 1)) =
          '0' :: padStart (natDigits m.natAbs) (d + 1) from rfl,
          digitsToNat_cons_zero, hpadval]
      have := parseDecimalChars_sign_dotted m ['0']
        (padStart (natDigits m.natAbs) (d + 1)) (by simp) (by decide) hpad_dig hval
      rw [this, heq]
    · rw [if_neg heq]
      set padded := padStart (natDigits m.natAbs) (d + 1) with hpdef
      have hge : d + 1 < padded.length := by
        rw [hpl]
        rw [hpl] at heq
        omega
      have hidx : 0 < padded.length - (d + 1) := by omega
      have hxne : padded.take (padded.length - (d + 1)) ≠ [] := by
        apply List.ne_nil_of_length_pos
        rw [List.length_take]
        omega
      have hxdig : (padded.take (padded.length - (d + 1))).all isDigitChar = true :=
        List.all_eq_true.mpr
          (fun c hc => List.all_eq_true.mp hpad_dig c (List.take_subset _ _ hc))
      have hydig : (padded.drop (padded.length - (d + 1))).all isDigitChar = true :=
        List.all_eq_true.mpr
          (fun c hc => List.all_eq_true.mp hpad_dig c (List.drop_subset _ _ hc))
      have hval : digitsToNat (padded.take (padded.length - (d + 1)) ++
          padded.drop (padded.length - (d + 1))) = m.natAbs := by
        rw [List.take_append_drop, hpadval]
      have := parseDecimalChars_sign_dotted m
        (padded.take (padded.length - (d + 1)))
        (padded.drop (padded.length - (d + 1))) hxne hxdig hydig hval
      rw [this]
      have hy : (padded.drop (padded.length - (d + 1))).length = d + 1 := by
        rw [List.length_drop]
        omega
      rw [hy]

theorem renderPair_shift (m₀ : Int) (k : Nat) (h0 : m₀ ≠ 0) :
    renderPair m₀ (-(k : Int)) = renderPair (m₀ * 10 ^ k) 0 := by
  have hle1 : (-(k : Int)) ≤ 0 := by omega
  have hle2 : (0 : Int) ≤ 0 := le_refl 0
  have htn1 : (-(-(k : Int))).toNat = k := by omega
  have htn2 : (-(0 : Int)).toNat = 0 := rfl
  unfold renderPair
  rw [if_pos hle1, if_pos hle2, htn1, htn2]
  have habs : (m₀ * 10 ^ k).natAbs = m₀.natAbs * 10 ^ k := by
    rw [Int.natAbs_mul, Int.natAbs_pow]
    rfl
  rw [habs, natDigits_mul_pow k (by omega), signList_mul_pow, List.replicate_zero,
    List.append_nil, List.append_assoc]

theorem reduce_of_not_dvd {m : Int} (d : Int) (h10 : m % 10 ≠ 0) :
    Precise.reduce ⟨m, d⟩ = ⟨m, d⟩ := by
  have hm : m ≠ 0 := by omega
  have habs : m.natAbs % 10 ≠ 0 := by omega
  unfold Precise.reduce
  rw [if_neg hm]
  simp only [stripZeros_of_not_dvd habs]
  congr 1
  · split <;> omega
  · simp

theorem reduce_strip (m₀ : Int) (k : Nat) (d : Int) (h10 : m₀ % 10 ≠ 0) :
    Precise.reduce ⟨m₀ * 10 ^ k, d⟩ = ⟨m₀, d - k⟩ := by
  have h0 : m₀ ≠ 0 := by omega
  have hp : (0 : Int) < 10 ^ k := pow_pos (by norm_num) k
  have hne : m₀ * 10 ^ k ≠ 0 := mul_ne_zero h0 hp.ne'
  unfold Precise.reduce
  rw [if_neg hne]
  have habs : (m₀ * 10 ^ k).natAbs = m₀.natAbs * 10 ^ k := by
    rw [Int.natAbs_mul, Int.natAbs_pow]
    rfl
  simp only [habs, @stripZeros_mul_pow m₀.natAbs k (by omega) (by omega)]
  congr 1
  by_cases hm : m₀ < 0
  · rw [if_pos (mul_neg_of_neg_of_pos hm hp)]
    omega
  · rw [if_neg (not_lt.mpr (mul_nonneg (not_lt.mp hm) hp.le))]
    omega

theorem toChars_of_reduce {p q : Precise} (h : p.reduce = q) :
    p.toChars = renderPair q.integer q.decimals := by
  rw [Precise.toChars, h]

theorem int_factor_ten (m : Int) (hm : m ≠ 0) :
    ∃ (m₀ : Int) (k : Nat), m = m₀ * 10 ^ k ∧ m₀ % 10 ≠ 0 ∧ m₀ ≠ 0 := by
  obtain ⟨hfac, hmod, hc0⟩ := stripZeros_spec m.natAbs (by omega)
  set c := (stripZeros m.natAbs).1 with hcdef
  set k := (stripZeros m.natAbs).2 with hkdef
  have hcast : (m.natAbs : Int) = (c : Int) * 10 ^ k := by
    exact_mod_cast congrArg (Nat.cast : Nat → Int) hfac.symm
  by_cases hneg : m < 0
  · refine ⟨-(c : Int), k, ?_, by omega, by omega⟩
    have : m = -(m.natAbs : Int) := by omega
    rw [this, hcast]
    ring
  · refine ⟨(c : Int), k, ?_, by omega, by omega⟩
    have : m = (m.natAbs : Int) := by omega
    rw [this, hcast]

theorem roundtripE9Chars (s : List Char) (h : isCanonicalDecimal s = true) :
    (parseE9chars s).bind toE9chars = some s := by
  unfold isCanonicalDecimal at h
  cases hp : parseDecimalChars s with
  | none => rw [hp] at h; exact absurd h (by simp)
  | some md =>
    obtain ⟨m, dn⟩ := md
    rw [hp] at h
    simp only [Bool.and_eq_true, Bool.or_eq_true, decide_eq_true_eq] at h
    obtain ⟨hmin, hrender⟩ := h
    have hstep1 : parseE9chars s = some (Precise.toChars ⟨m, (dn : Int) + 9⟩) := by
      unfold parseE9chars Precise.ofChars
      rw [hp]
      rfl
    rw [hstep1]
    show toE9chars (Precise.toChars ⟨m, (dn : Int) + 9⟩) = some s
    by_cases hm : m = 0
    · subst hm
      have hdn : dn = 0 := by
        rcases hmin with h0 | h1
        · exact h0
        · exact absurd (by decide : (0 : Int) % 10 = 0) h1
      subst hdn
      have hs : s = ['0'] := by
        rw [← hrender]
        decide
      subst hs
      decide
    · by_cases hdn : dn = 0
      · obtain ⟨m₀, k, hfac, hm10, hm0⟩ := int_factor_ten m hm
        have he9 : (dn : Int) + 9 = 9 := by omega
        rw [he9]
        have hrender0 : renderPair m 0 = s := by
          have hc : (dn : Int) = 0 := by omega
          rw [hc] at hrender
          exact hrender
        have hred1 : (⟨m, (9 : Int)⟩ : Precise).reduce = ⟨m₀, 9 - k⟩ := by
          rw [hfac]
          exact reduce_strip m₀ k 9 hm10
        rw [toChars_of_reduce hred1]
        by_cases hk : k ≤ 9
        · have hcast : (9 : Int) - k = ((9 - k : Nat) : Int) := by omega
          rw [hcast]
          unfold toE9chars Precise.ofChars
          rw [parse_render_nonneg m₀ (9 - k)]
          simp only [Option.map_some']
          congr 1
          have hcast2 : ((9 - k : Nat) : Int) - 9 = -(k : Int) := by omega
          rw [hcast2]
          have hred2 : (⟨m₀, -(k : Int)⟩ : Precise).reduce = ⟨m₀, -(k : Int)⟩ :=
            reduce_of_not_dvd _ hm10
          rw [toChars_of_reduce hred2, renderPair_shift m₀ k hm0, ← hfac]
          exact hrender0
        · have hcast : (9 : Int) - k = -((k - 9 : Nat) : Int) := by omega
          rw [hcast]
          unfold toE9chars Precise.ofChars
          rw [parse_render_nonpos m₀ (k - 9)]
          simp only [Option.map_some']
          congr 1
          have hred2 : (⟨m₀ * 10 ^ (k - 9), ((0 : Nat) : Int) - 9⟩ : Precise).reduce =
              ⟨m₀, -(k : Int)⟩ := by
            rw [reduce_strip m₀ (k - 9) (((0 : Nat) : Int) - 9) hm10]
            congr 1
            omega
          rw [toChars_of_reduce hred2, renderPair_shift m₀ k hm0, ← hfac]
          exact hrender0
      · have hm10 : ¬ m % 10 = 0 := by
          rcases hmin with h0 | h1
          · exact absurd h0 hdn
          · exact h1
        have hcast : (dn : Int) + 9 = ((dn + 9 : Nat) : Int) := by push_cast; ring
        rw [hcast]
        have hred1 : (⟨m, ((dn + 9 : Nat) : Int)⟩ : Precise).reduce =
            ⟨m, ((dn + 9 : Nat) : Int)⟩ := reduce_of_not_dvd _ hm10
        rw [toChars_of_reduce hred1]
        unfold toE9chars Precise.ofChars
        rw [parse_render_nonneg m (dn + 9)]
        simp only [Option.map_some']
        congr 1
        have hcast2 : ((dn + 9 : Nat) : Int) - 9 = (dn : Int) := by push_cast; ring
        rw [hcast2]
        have hred2 : (⟨m, (dn : Int)⟩ : Precise).reduce = ⟨m, (dn : Int)⟩ :=
          reduce_of_not_dvd _ hm10
        rw [toChars_of_reduce hred2]
        exact hrender

/-- C2 (amended): for every decimal string `v` in the scaler's canonical
minimal form (no trailing fractional zeros, no superfluous leading zeros,
no bare dot or `-0`) with at most 9 fractional digits, applying the
scale-down conversion `parseE9` and then the scale-up conversion `toE9`
returns `v` exactly, by pure decimal-point shifts over exact
arbitrary-precision decimals with no binary floating point. -/
theorem c2_scaling_roundtrip (v : String)
    (hcanon : isCanonicalDecimal v.data = true)
    (hfrac : fracDigits v.data ≤ 9) :
    toE9 (parseE9 (some v)) = some v := by
  have hrt := roundtripE9Chars v.data hcanon
  cases hq : parseE9chars v.data with
  | none => rw [hq] at hrt; exact absurd hrt (by simp)
  | some l1 =>
    rw [hq] at hrt
    show toE9 ((parseE9chars v.data).map String.mk) = some v
    rw [hq]
    show (toE9chars l1).map String.mk = some v
    have : toE9chars l1 = some v.data := hrt
    rw [this]
    rfl

/-- Concrete witness for `c2_scaling_roundtrip`. -/
theorem c2_scaling_roundtrip_witness :
    toE9 (parseE9 (some "0.5")) = some "0.5" :=
  c2_scaling_roundtrip "0.5" (by decide) (by decide)

/-- C2 counterexample: `"1.50"` is a decimal string with 2 (≤ 9)
fractional digits, yet the scale-down/scale-up round trip returns
`"1.5"`, not `"1.50"` — the trailing-zero trim after each conversion
breaks exact string equality for non-canonical inputs. -/
theorem c2_counterexample :
    (parseDecimalChars ("1.50").data).isSome = true
    ∧ fracDigits ("1.50").data ≤ 9
    ∧ toE9 (parseE9 (some "1.50")) = some "1.5"
    ∧ toE9 (parseE9 (some "1.50")) ≠ some "1.50" := by
  refine ⟨by decide, by decide, by decide, by decide⟩
